import Mathlib

/-!
# TEA5757 radio-on-chip driver: protocol model

A shallow embedding of `TEA5757.cpp` / `TEA5757.h`.

* The Arduino GPIO calls (`pinMode`, `digitalWrite`, `digitalRead`,
  `delayMicroseconds`) act on an explicit `Gpio` state that also keeps a log of
  every call made, in program order.
* `uint32_t` arithmetic is arithmetic on `Nat` reduced `% 2 ^ 32`.
* The width of the target's `int` decides how `(frequency + 107) * 8` is
  evaluated after integer promotion, so it is a parameter (`IntWidth`).
* The local `data` of `preset` is read before it is assigned; its initial
  content is the parameter `data0`.
-/

set_option autoImplicit false

/-! ## Constants of `TEA5757.h` and `TEA5757.cpp` -/

/-- Radio band FM (`#define TEA5757_BAND_FM 1`). -/
def TEA5757_BAND_FM : Nat := 1
/-- Radio band AM (`#define TEA5757_BAND_AM 2`). -/
def TEA5757_BAND_AM : Nat := 2

/-- Search direction none (`#define TEA5757_SEARCH_NONE 0`). -/
def TEA5757_SEARCH_NONE : Nat := 0
/-- Search direction up (`#define TEA5757_SEARCH_UP 1`). -/
def TEA5757_SEARCH_UP : Nat := 1
/-- Search direction down (`#define TEA5757_SEARCH_DOWN 2`). -/
def TEA5757_SEARCH_DOWN : Nat := 2

/-- Signal detection level 1 (`#define TEA5757_LVL_1 1`). -/
def TEA5757_LVL_1 : Nat := 1
/-- Signal detection level 2 (`#define TEA5757_LVL_2 2`). -/
def TEA5757_LVL_2 : Nat := 2
/-- Signal detection level 3 (`#define TEA5757_LVL_3 3`). -/
def TEA5757_LVL_3 : Nat := 3
/-- Signal detection level 4 (`#define TEA5757_LVL_4 4`). -/
def TEA5757_LVL_4 : Nat := 4

/-- Base timing in microseconds (`#define TEA5757_DELAY 5`). -/
def TEA5757_DELAY : Nat := 5

/-- Value OR-ed into all data sent
(`#define TEA5757_BASE_CONFIG 0b0000011000000000000000000`). -/
def TEA5757_BASE_CONFIG : Nat := 0b0000011000000000000000000

/-! ## GPIO model -/

/-- Logic level of a digital pin (`LOW` is `0x0`, `HIGH` is `0x1` in `Arduino.h`). -/
inductive Level where
  | LOW
  | HIGH
  deriving DecidableEq, Repr

/-- Integer value of a level, as `digitalRead` returns it. -/
def Level.toNat : Level → Nat
  | Level.LOW => 0
  | Level.HIGH => 1

/-- Direction of a digital pin. -/
inductive PinMode where
  | INPUT
  | OUTPUT
  deriving DecidableEq, Repr

/-- One call of the GPIO interface, as recorded in the log. -/
inductive GpioOp where
  | pinMode (pin : Nat) (mode : PinMode)
  | digitalWrite (pin : Nat) (val : Level)
  | digitalRead (pin : Nat) (val : Level)
  | delayMicroseconds (us : Nat)
  deriving DecidableEq, Repr

/-- State of the GPIO collaborator.
`mode` and `level` are the direction and the last written level of every pin,
`input` holds the levels that the coming `digitalRead` calls sample (a read
past its end samples `LOW`), `trace` is the log of all calls so far. -/
structure Gpio where
  mode : Nat → PinMode
  level : Nat → Level
  input : List Level
  trace : List GpioOp

namespace Gpio

/-- `pinMode(pin, m)`. -/
def pinMode (pin : Nat) (m : PinMode) (g : Gpio) : Gpio :=
  { g with
    mode := fun p => if p = pin then m else g.mode p
    trace := g.trace ++ [GpioOp.pinMode pin m] }

/-- `digitalWrite(pin, v)`. -/
def digitalWrite (pin : Nat) (v : Level) (g : Gpio) : Gpio :=
  { g with
    level := fun p => if p = pin then v else g.level p
    trace := g.trace ++ [GpioOp.digitalWrite pin v] }

/-- `digitalRead(pin)`: the sampled level and the state after the call. -/
def digitalRead (pin : Nat) (g : Gpio) : Level × Gpio :=
  let v := g.input.headD Level.LOW
  (v, { g with input := g.input.tail, trace := g.trace ++ [GpioOp.digitalRead pin v] })

/-- `delayMicroseconds(us)`. -/
def delayMicroseconds (us : Nat) (g : Gpio) : Gpio :=
  { g with trace := g.trace ++ [GpioOp.delayMicroseconds us] }

end Gpio

/-! ## The driver -/

/-- Width of the target's `int`. A `uint16_t` operand is promoted to
`unsigned int` where `int` has 16 bits (AVR) and to `int` where it has 32. -/
inductive IntWidth where
  | w16
  | w32
  deriving DecidableEq, Repr

/-- Number of bits of `int`. -/
def IntWidth.bits : IntWidth → Nat
  | IntWidth.w16 => 16
  | IntWidth.w32 => 32

/-- Pin assignment: the private members set by the constructor. -/
structure TEA5757 where
  _mo_st_pin : Nat
  _clock_pin : Nat
  _data_pin : Nat
  _wr_en_pin : Nat
  deriving DecidableEq, Repr

namespace TEA5757

/-- `TEA5757::init()`. -/
def init (t : TEA5757) (g : Gpio) : Gpio :=
  let g := g.pinMode t._mo_st_pin PinMode.INPUT
  let g := g.pinMode t._clock_pin PinMode.OUTPUT
  let g := g.pinMode t._data_pin PinMode.INPUT
  let g := g.pinMode t._wr_en_pin PinMode.OUTPUT
  let g := g.digitalWrite t._wr_en_pin Level.LOW
  let g := g.digitalWrite t._clock_pin Level.LOW
  let g := g.digitalWrite t._data_pin Level.HIGH
  g.digitalWrite t._mo_st_pin Level.HIGH

/-- `TEA5757::clock()`: toggle the clock pin. -/
def clock (t : TEA5757) (g : Gpio) : Gpio :=
  let g := g.digitalWrite t._clock_pin Level.HIGH
  let g := g.delayMicroseconds TEA5757_DELAY
  g.digitalWrite t._clock_pin Level.LOW

/-- The `for` loop of `write`, with `n` iterations left:
test `data & 0x01000000`, drive the data pin, pulse the clock, shift `data`. -/
def writeLoop (t : TEA5757) : Nat → Nat → Gpio → Gpio
  | 0, _, g => g
  | n + 1, data, g =>
    let g :=
      if data &&& 0x01000000 ≠ 0 then g.digitalWrite t._data_pin Level.HIGH
      else g.digitalWrite t._data_pin Level.LOW
    let g := clock t g
    writeLoop t n ((data <<< 1) % 2 ^ 32) g

/-- `TEA5757::write(uint32_t data)`. -/
def write (t : TEA5757) (data : Nat) (g : Gpio) : Gpio :=
  let g := g.digitalWrite t._wr_en_pin Level.HIGH
  let g := g.pinMode t._data_pin PinMode.OUTPUT
  let g := writeLoop t 25 data g
  let g := g.pinMode t._data_pin PinMode.INPUT
  let g := g.digitalWrite t._data_pin Level.HIGH
  g.digitalWrite t._wr_en_pin Level.LOW

/-- The `for` loop of `read`, with `n` iterations left:
shift `data`, pulse the clock, sample the data pin into bit 0. -/
def readLoop (t : TEA5757) : Nat → Nat → Gpio → Nat × Gpio
  | 0, data, g => (data, g)
  | n + 1, data, g =>
    let data := (data <<< 1) % 2 ^ 32
    let g := clock t g
    let r := g.digitalRead t._data_pin
    let data := if r.1.toNat ≠ 0 then data ||| 0x1 else data
    readLoop t n data r.2

/-- `TEA5757::read()`: the returned `uint32_t` and the state after the call. -/
def read (t : TEA5757) (g : Gpio) : Nat × Gpio :=
  let g := g.digitalWrite t._wr_en_pin Level.HIGH
  let g := g.delayMicroseconds TEA5757_DELAY
  let g := g.digitalWrite t._wr_en_pin Level.LOW
  let g := g.delayMicroseconds TEA5757_DELAY
  let r := g.digitalRead t._data_pin
  readLoop t 24 r.1.toNat r.2

/-- Value of `(frequency + k) * m` for a `uint16_t` frequency and `int`
constants: computed in `unsigned int` modulo `2 ^ 16` where `int` has 16 bits,
and in `int` where it has 32 (no overflow is possible there, the value stays
below `2 ^ 20`). -/
def divider (iw : IntWidth) (frequency k m : Nat) : Nat :=
  ((frequency + k) * m) % 2 ^ iw.bits

/-- The value of `data` that `preset` hands to `write`, or `none` when the
`default` branch returns. `data0` is the content of the unassigned local. -/
def presetWord (iw : IntWidth) (data0 frequency band : Nat) : Option Nat :=
  if band = TEA5757_BAND_FM then
    let data := data0 ||| (0b0000000110000000000000000 ||| TEA5757_BASE_CONFIG)
    some ((data + divider iw frequency 107 8) % 2 ^ 32)
  else if band = TEA5757_BAND_AM then
    let data := data0 ||| (0b0000100110000000000000000 ||| TEA5757_BASE_CONFIG)
    some ((data + divider iw frequency 45 10) % 2 ^ 32)
  else
    none

/-- `TEA5757::preset(uint16_t frequency, uint8_t band)`. -/
def preset (t : TEA5757) (iw : IntWidth) (data0 frequency band : Nat) (g : Gpio) : Gpio :=
  match presetWord iw data0 frequency band with
  | some data => write t data g
  | none => g

/-- The value of `data` that `search` hands to `write`. -/
def searchWord (band level dir : Nat) : Nat :=
  let data := 0b1000000000000000000000000 ||| TEA5757_BASE_CONFIG
  let data := if band = TEA5757_BAND_AM then data ||| 0b0000100000000000000000000 else data
  let data :=
    if level = TEA5757_LVL_2 then data ||| 0b0000000010000000000000000
    else if level = TEA5757_LVL_3 then data ||| 0b0000000100000000000000000
    else if level = TEA5757_LVL_4 then data ||| 0b0000000110000000000000000
    else data
  if dir = TEA5757_SEARCH_UP then data ||| 0b0100000000000000000000000 else data

/-- `TEA5757::search(uint8_t band, uint8_t level, uint8_t dir)`. -/
def search (t : TEA5757) (band level dir : Nat) (g : Gpio) : Gpio :=
  write t (searchWord band level dir) g

/-- `TEA5757::getPLLFrequency()`: the returned `uint16_t` and the state after. -/
def getPLLFrequency (t : TEA5757) (g : Gpio) : Nat × Gpio :=
  let r := read t g
  let data := r.1 &&& 0b0000000000111111111111111
  (data % 2 ^ 16, r.2)

/-- `TEA5757::isStereo()`: the returned `uint8_t` and the state after. -/
def isStereo (t : TEA5757) (g : Gpio) : Nat × Gpio :=
  let r := g.digitalRead t._mo_st_pin
  (if r.1.toNat ≠ 0 then 0 else 1, r.2)

end TEA5757

/-! ## Fixtures used to evaluate the model on concrete inputs -/

/-- A pin assignment with four different pins. -/
def demoPins : TEA5757 :=
  { _mo_st_pin := 2, _clock_pin := 3, _data_pin := 4, _wr_en_pin := 5 }

/-- A GPIO state before any call: all pins inputs at level low, nothing to
sample, empty log. -/
def Gpio.fresh : Gpio :=
  { mode := fun _ => PinMode.INPUT, level := fun _ => Level.LOW, input := [], trace := [] }

/-! ## The search word in the words of the specification -/

/-- The calls logged between the state `g` and a later state `g2`. -/
def Gpio.since (g g2 : Gpio) : List GpioOp :=
  g2.trace.drop g.trace.length

/-- Level that stands for a bit: `HIGH` for 1, `LOW` for 0. -/
def bitLevel (b : Bool) : Level :=
  if b then Level.HIGH else Level.LOW

/-- The levels the data line presents at the rising clock edges of a log:
replay the log, follow the level last written to the data pin (`cur` before
the log) and record it at every `digitalWrite(_clock_pin, HIGH)`. -/
def clockedLevels (t : TEA5757) : Level → List GpioOp → List Level
  | _, [] => []
  | cur, GpioOp.digitalWrite pin v :: ops =>
    let cur := if pin = t._data_pin then v else cur
    if pin = t._clock_pin ∧ v = Level.HIGH then cur :: clockedLevels t cur ops
    else clockedLevels t cur ops
  | cur, _ :: ops => clockedLevels t cur ops

/-- The calls of one clock pulse. -/
def clockOps (t : TEA5757) : List GpioOp :=
  [GpioOp.digitalWrite t._clock_pin Level.HIGH, GpioOp.delayMicroseconds TEA5757_DELAY,
    GpioOp.digitalWrite t._clock_pin Level.LOW]

/-- The levels the loop of `write` puts on the data pin in `n` iterations
starting from the working value `data`. -/
def shiftLevels : Nat → Nat → List Level
  | 0, _ => []
  | n + 1, data =>
    (if data &&& 0x01000000 ≠ 0 then Level.HIGH else Level.LOW)
      :: shiftLevels n ((data <<< 1) % 2 ^ 32)

/-- The calls the loop of `write` makes in `n` iterations starting from the
working value `data`. -/
def writeLoopOps (t : TEA5757) : Nat → Nat → List GpioOp
  | 0, _ => []
  | n + 1, data =>
    (GpioOp.digitalWrite t._data_pin
        (if data &&& 0x01000000 ≠ 0 then Level.HIGH else Level.LOW) :: clockOps t)
      ++ writeLoopOps t n ((data <<< 1) % 2 ^ 32)

/-- The value the loop of `read` builds in `n` iterations from the working
value `data` and the sampled levels `s`. -/
def shiftIn : Nat → Nat → List Level → Nat
  | 0, data, _ => data
  | n + 1, data, s =>
    let data := (data <<< 1) % 2 ^ 32
    shiftIn n (if (s.headD Level.LOW).toNat ≠ 0 then data ||| 0x1 else data) s.tail

/-- The calls the loop of `read` makes in `n` iterations when the coming
samples are `s`: per iteration one clock pulse, then one `digitalRead` of the
data pin. -/
def readLoopOps (t : TEA5757) : Nat → List Level → List GpioOp
  | 0, _ => []
  | n + 1, s =>
    (clockOps t ++ [GpioOp.digitalRead t._data_pin (s.headD Level.LOW)])
      ++ readLoopOps t n s.tail

/-- Number of clock pulses in a log: its calls `digitalWrite(_clock_pin, HIGH)`,
the rising edges of the clock line. -/
def clockPulses (t : TEA5757) (ops : List GpioOp) : Nat :=
  ops.count (GpioOp.digitalWrite t._clock_pin Level.HIGH)

namespace TEA5757

/-! ## Control words of `preset` -/

/-- C1 (counterexample): for F = 880 the FM word of `preset` is 990936 and its
low 17 bits are 65536 + (880 + 107) * 8, not (880 + 107) * 8: bit 16 belongs to
the FM constant. -/
theorem preset_fm_low17_counterexample :
    presetWord IntWidth.w16 0 880 TEA5757_BAND_FM = some 990936 ∧
      presetWord IntWidth.w32 0 880 TEA5757_BAND_FM = some 990936 ∧
      990936 % 2 ^ 17 ≠ (880 + 107) * 8 := by
  decide

/-- C1 (amended): for every FM frequency F with 880 ≤ F ≤ 1080, on either `int`
width and with the accumulator zero, `preset` hands `write` a word whose low 16
bits, and so its low 15 bits, equal (F + 107) * 8; bits 16 and 17 are set by
the FM constant, so the low 17 bits are 2 ^ 16 + (F + 107) * 8; bit 24 is
clear, the FM constant is present, the AM marker bit 20 is clear, and every bit
of `TEA5757_BASE_CONFIG` is set. -/
theorem preset_fm_word (iw : IntWidth) (F : Nat) (hlo : 880 ≤ F) (hhi : F ≤ 1080) :
    ∃ w, presetWord iw 0 F TEA5757_BAND_FM = some w ∧
      w % 2 ^ 16 = (F + 107) * 8 ∧
      w % 2 ^ 15 = (F + 107) * 8 ∧
      w % 2 ^ 17 = 2 ^ 16 + (F + 107) * 8 ∧
      w.testBit 24 = false ∧
      w &&& 0b0000000110000000000000000 = 0b0000000110000000000000000 ∧
      w &&& 0b0000100000000000000000000 = 0 ∧
      w &&& TEA5757_BASE_CONFIG = TEA5757_BASE_CONFIG := by
  refine ⟨983040 + (F + 107) * 8, ?_⟩
  interval_cases F <;> cases iw <;> decide

/-- C1 (witness): the amended statement at F = 880 on a 16-bit `int`. -/
theorem preset_fm_word_witness :
    (880 ≤ 880 ∧ 880 ≤ 1080) ∧
      ∃ w, presetWord IntWidth.w16 0 880 TEA5757_BAND_FM = some w ∧
        w % 2 ^ 16 = (880 + 107) * 8 ∧
        w % 2 ^ 15 = (880 + 107) * 8 ∧
        w % 2 ^ 17 = 2 ^ 16 + (880 + 107) * 8 ∧
        w.testBit 24 = false ∧
        w &&& 0b0000000110000000000000000 = 0b0000000110000000000000000 ∧
        w &&& 0b0000100000000000000000000 = 0 ∧
        w &&& TEA5757_BASE_CONFIG = TEA5757_BASE_CONFIG :=
  ⟨by decide, preset_fm_word IntWidth.w16 880 (by decide) (by decide)⟩

/-- C2 (counterexample): for F = 53 the AM word of `preset` is 2032596 and its
low 17 bits are 65536 + (53 + 45) * 10, not (53 + 45) * 10. -/
theorem preset_am_low17_counterexample :
    presetWord IntWidth.w16 0 53 TEA5757_BAND_AM = some 2032596 ∧
      presetWord IntWidth.w32 0 53 TEA5757_BAND_AM = some 2032596 ∧
      2032596 % 2 ^ 17 ≠ (53 + 45) * 10 := by
  decide

/-- C2 (amended): for every AM frequency F with 53 ≤ F ≤ 170, on either `int`
width and with the accumulator zero, `preset` hands `write` a word whose low 16
bits, and so its low 15 bits, equal (F + 45) * 10; bits 16 and 17 are set by
the AM constant, so the low 17 bits are 2 ^ 16 + (F + 45) * 10; bit 24 is
clear, the AM constant with its marker bit 20 is present, and every bit of
`TEA5757_BASE_CONFIG` is set. -/
theorem preset_am_word (iw : IntWidth) (F : Nat) (hlo : 53 ≤ F) (hhi : F ≤ 170) :
    ∃ w, presetWord iw 0 F TEA5757_BAND_AM = some w ∧
      w % 2 ^ 16 = (F + 45) * 10 ∧
      w % 2 ^ 15 = (F + 45) * 10 ∧
      w % 2 ^ 17 = 2 ^ 16 + (F + 45) * 10 ∧
      w.testBit 24 = false ∧
      w &&& 0b0000100110000000000000000 = 0b0000100110000000000000000 ∧
      w &&& TEA5757_BASE_CONFIG = TEA5757_BASE_CONFIG := by
  refine ⟨2031616 + (F + 45) * 10, ?_⟩
  interval_cases F <;> cases iw <;> decide

/-- C2 (witness): the amended statement at F = 170 on a 32-bit `int`. -/
theorem preset_am_word_witness :
    (53 ≤ 170 ∧ 170 ≤ 170) ∧
      ∃ w, presetWord IntWidth.w32 0 170 TEA5757_BAND_AM = some w ∧
        w % 2 ^ 16 = (170 + 45) * 10 ∧
        w % 2 ^ 15 = (170 + 45) * 10 ∧
        w % 2 ^ 17 = 2 ^ 16 + (170 + 45) * 10 ∧
        w.testBit 24 = false ∧
        w &&& 0b0000100110000000000000000 = 0b0000100110000000000000000 ∧
        w &&& TEA5757_BASE_CONFIG = TEA5757_BASE_CONFIG :=
  ⟨by decide, preset_am_word IntWidth.w32 170 (by decide) (by decide)⟩

/-! ## Control word of `search` -/

/-- Masking the part of a number above bit 16 does not see its low 16 bits. -/
theorem land_above_bit16 (hi m d : Nat) (hd : d < 2 ^ 16) :
    (2 ^ 16 * hi + d) &&& (2 ^ 16 * m) = 2 ^ 16 * (hi &&& m) := by
  apply Nat.eq_of_testBit_eq
  intro j
  rw [Nat.testBit_and, Nat.testBit_mul_pow_two_add hi hd, Nat.testBit_mul_pow_two,
    Nat.testBit_mul_pow_two, Nat.testBit_and]
  by_cases hj : j < 16
  · have : ¬ j ≥ 16 := by omega
    simp [hj, this]
  · have : j ≥ 16 := by omega
    simp [hj, this]

/-- Adding `d` to a word whose bits 16 to 19 (and, with `hi = 31`, bit 20) are
set and whose low 16 bits are clear keeps both bits of the configuration mask
exactly when `d` does not carry into bit 16. -/
theorem add_keeps_config_iff (hi d : Nat) (hhi : hi = 15 ∨ hi = 31)
    (hd : d < 2 ^ 16 * (hi - 6)) (hd11 : d < 2 ^ 16 * 11) :
    ((2 ^ 16 * hi + d) &&& TEA5757_BASE_CONFIG = TEA5757_BASE_CONFIG ↔ d < 2 ^ 16) := by
  have hr : d % 2 ^ 16 < 2 ^ 16 := Nat.mod_lt _ (by norm_num)
  have hsplit : 2 ^ 16 * (d / 2 ^ 16) + d % 2 ^ 16 = d := Nat.div_add_mod d (2 ^ 16)
  have key : (2 ^ 16 * hi + d) &&& TEA5757_BASE_CONFIG
      = 2 ^ 16 * ((hi + d / 2 ^ 16) &&& 12) := by
    rw [← land_above_bit16 (hi + d / 2 ^ 16) 12 (d % 2 ^ 16) hr]
    congr 1
    omega
  rw [key]
  have hq : d / 2 ^ 16 < 11 := by omega
  have hq9 : hi = 15 → d / 2 ^ 16 < 9 := by omega
  have hlt : d < 2 ^ 16 ↔ d / 2 ^ 16 = 0 := by omega
  rw [hlt]
  generalize d / 2 ^ 16 = q at hq hq9
  rcases hhi with rfl | rfl
  · have hq9 := hq9 rfl
    interval_cases q <;> decide
  · interval_cases q <;> decide

/-- The configuration mask is part of every word of `search`. -/
theorem search_word_has_config (band level dir : Nat) :
    searchWord band level dir &&& TEA5757_BASE_CONFIG = TEA5757_BASE_CONFIG := by
  simp only [searchWord, TEA5757_BAND_AM, TEA5757_LVL_2, TEA5757_LVL_3, TEA5757_LVL_4,
    TEA5757_SEARCH_UP, TEA5757_BASE_CONFIG]
  split_ifs <;> rfl

/-- C7 (counterexample): where `int` has 32 bits, preset(8085, FM) hands
`write` the word 0x100000, in which both bits of `TEA5757_BASE_CONFIG` are
clear: the divider 65536 carries through bits 16 to 19. -/
theorem preset_config_mask_counterexample :
    presetWord IntWidth.w32 0 8085 TEA5757_BAND_FM = some 0x100000 ∧
      0x100000 &&& TEA5757_BASE_CONFIG = 0 ∧
      0x100000 &&& TEA5757_BASE_CONFIG ≠ TEA5757_BASE_CONFIG := by
  decide

/-- C7 (amended): every word of `search` has every bit of `TEA5757_BASE_CONFIG`
set. For every 16-bit frequency F, with the accumulator zero, preset(F, FM) and
preset(F, AM) transmit a word, and that word has every bit of the mask set
exactly when the added divider stays below 2 ^ 16: always where `int` has 16
bits, and for F ≤ 8084 (FM) or F ≤ 6508 (AM) where it has 32 bits. -/
theorem config_mask_in_words (iw : IntWidth) (F band level dir : Nat) (hF : F < 65536) :
    searchWord band level dir &&& TEA5757_BASE_CONFIG = TEA5757_BASE_CONFIG ∧
      (∃ w, presetWord iw 0 F TEA5757_BAND_FM = some w ∧
        (w &&& TEA5757_BASE_CONFIG = TEA5757_BASE_CONFIG ↔ (iw = IntWidth.w16 ∨ F ≤ 8084))) ∧
      (∃ w, presetWord iw 0 F TEA5757_BAND_AM = some w ∧
        (w &&& TEA5757_BASE_CONFIG = TEA5757_BASE_CONFIG ↔ (iw = IntWidth.w16 ∨ F ≤ 6508))) := by
  refine ⟨search_word_has_config band level dir, ?_, ?_⟩
  · have h32 : (F + 107) * 8 % 2 ^ 32 = (F + 107) * 8 := Nat.mod_eq_of_lt (by omega)
    have hd : divider iw F 107 8 < 2 ^ 16 * 9 := by
      cases iw <;> simp only [divider, IntWidth.bits, h32] <;> omega
    have hiff : divider iw F 107 8 < 2 ^ 16 ↔ (iw = IntWidth.w16 ∨ F ≤ 8084) := by
      cases iw <;> simp only [divider, IntWidth.bits, h32] <;> simp <;> omega
    refine ⟨2 ^ 16 * 15 + divider iw F 107 8, ?_, ?_⟩
    · have hm : (2 ^ 16 * 15 + divider iw F 107 8) % 2 ^ 32
          = 2 ^ 16 * 15 + divider iw F 107 8 := Nat.mod_eq_of_lt (by omega)
      simp only [presetWord, if_true]
      rw [← hm]
      rfl
    · rw [← hiff]
      exact add_keeps_config_iff 15 _ (Or.inl rfl) hd (by omega)
  · have h32 : (F + 45) * 10 % 2 ^ 32 = (F + 45) * 10 := Nat.mod_eq_of_lt (by omega)
    have hd : divider iw F 45 10 < 2 ^ 16 * 11 := by
      cases iw <;> simp only [divider, IntWidth.bits, h32] <;> omega
    have hiff : divider iw F 45 10 < 2 ^ 16 ↔ (iw = IntWidth.w16 ∨ F ≤ 6508) := by
      cases iw <;> simp only [divider, IntWidth.bits, h32] <;> simp <;> omega
    refine ⟨2 ^ 16 * 31 + divider iw F 45 10, ?_, ?_⟩
    · have hm : (2 ^ 16 * 31 + divider iw F 45 10) % 2 ^ 32
          = 2 ^ 16 * 31 + divider iw F 45 10 := Nat.mod_eq_of_lt (by omega)
      simp only [presetWord, TEA5757_BAND_AM, TEA5757_BAND_FM]
      rw [← hm]
      rfl
    · rw [← hiff]
      exact add_keeps_config_iff 31 _ (Or.inr rfl) (by omega) hd

/-- C7 (witness): the amended statement at F = 8085 on a 32-bit `int`. -/
theorem config_mask_in_words_witness :
    8085 < 65536 ∧
      (searchWord TEA5757_BAND_AM TEA5757_LVL_4 TEA5757_SEARCH_UP &&& TEA5757_BASE_CONFIG
          = TEA5757_BASE_CONFIG ∧
        (∃ w, presetWord IntWidth.w32 0 8085 TEA5757_BAND_FM = some w ∧
          (w &&& TEA5757_BASE_CONFIG = TEA5757_BASE_CONFIG ↔
            (IntWidth.w32 = IntWidth.w16 ∨ 8085 ≤ 8084))) ∧
        (∃ w, presetWord IntWidth.w32 0 8085 TEA5757_BAND_AM = some w ∧
          (w &&& TEA5757_BASE_CONFIG = TEA5757_BASE_CONFIG ↔
            (IntWidth.w32 = IntWidth.w16 ∨ 8085 ≤ 6508)))) :=
  ⟨by decide,
    config_mask_in_words IntWidth.w32 8085 TEA5757_BAND_AM TEA5757_LVL_4 TEA5757_SEARCH_UP
      (by decide)⟩

/-! ## Bit positions of the band and level fields -/

/-- C8 (counterexample): search(AM, 1, NONE) sends a word whose bit 22 is 0,
although the band is AM; the AM marker is bit 20. -/
theorem band_bit22_counterexample :
    (searchWord TEA5757_BAND_AM TEA5757_LVL_1 TEA5757_SEARCH_NONE).testBit 22 = false ∧
      (searchWord TEA5757_BAND_AM TEA5757_LVL_1 TEA5757_SEARCH_NONE).testBit 20 = true := by
  decide

/-- C8 (amended): in every word sent by `preset` for a frequency of the valid
range (accumulator zero, either `int` width) and in every word sent by
`search`, bit 20 is the band select: 1 when the band argument is
`TEA5757_BAND_AM` and 0 when it is `TEA5757_BAND_FM`. Bit 22 is 0 in all of
these words. -/
theorem band_select_is_bit20 (iw : IntWidth) (Ffm Fam level dir : Nat)
    (hfm : 880 ≤ Ffm ∧ Ffm ≤ 1080) (ham : 53 ≤ Fam ∧ Fam ≤ 170) :
    (∃ w, presetWord iw 0 Ffm TEA5757_BAND_FM = some w ∧
        w.testBit 20 = false ∧ w.testBit 22 = false) ∧
      (∃ w, presetWord iw 0 Fam TEA5757_BAND_AM = some w ∧
        w.testBit 20 = true ∧ w.testBit 22 = false) ∧
      ((searchWord TEA5757_BAND_FM level dir).testBit 20 = false ∧
        (searchWord TEA5757_BAND_FM level dir).testBit 22 = false) ∧
      ((searchWord TEA5757_BAND_AM level dir).testBit 20 = true ∧
        (searchWord TEA5757_BAND_AM level dir).testBit 22 = false) := by
  obtain ⟨h1, h2⟩ := hfm
  obtain ⟨h3, h4⟩ := ham
  refine ⟨⟨983040 + (Ffm + 107) * 8, ?_⟩, ⟨2031616 + (Fam + 45) * 10, ?_⟩, ?_, ?_⟩
  · interval_cases Ffm <;> cases iw <;> decide
  · interval_cases Fam <;> cases iw <;> decide
  · have hne : ¬ ((1 : Nat) = 2) := by decide
    simp only [searchWord, TEA5757_BAND_AM, TEA5757_BAND_FM, TEA5757_LVL_2, TEA5757_LVL_3,
      TEA5757_LVL_4, TEA5757_SEARCH_UP, TEA5757_BASE_CONFIG, hne, if_false]
    split_ifs <;> decide
  · simp only [searchWord, TEA5757_BAND_AM, TEA5757_LVL_2, TEA5757_LVL_3,
      TEA5757_LVL_4, TEA5757_SEARCH_UP, TEA5757_BASE_CONFIG]
    split_ifs <;> decide

/-- C8 (witness): the amended statement at 98.5 MHz and 1000 kHz. -/
theorem band_select_is_bit20_witness :
    ((880 ≤ 985 ∧ 985 ≤ 1080) ∧ (53 ≤ 100 ∧ 100 ≤ 170)) ∧
      ((∃ w, presetWord IntWidth.w16 0 985 TEA5757_BAND_FM = some w ∧
          w.testBit 20 = false ∧ w.testBit 22 = false) ∧
        (∃ w, presetWord IntWidth.w16 0 100 TEA5757_BAND_AM = some w ∧
          w.testBit 20 = true ∧ w.testBit 22 = false) ∧
        ((searchWord TEA5757_BAND_FM TEA5757_LVL_2 TEA5757_SEARCH_DOWN).testBit 20 = false ∧
          (searchWord TEA5757_BAND_FM TEA5757_LVL_2 TEA5757_SEARCH_DOWN).testBit 22 = false) ∧
        ((searchWord TEA5757_BAND_AM TEA5757_LVL_2 TEA5757_SEARCH_DOWN).testBit 20 = true ∧
          (searchWord TEA5757_BAND_AM TEA5757_LVL_2 TEA5757_SEARCH_DOWN).testBit 22 = false)) :=
  ⟨by decide,
    band_select_is_bit20 IntWidth.w16 985 100 TEA5757_LVL_2 TEA5757_SEARCH_DOWN
      (by decide) (by decide)⟩

/-- C9 (counterexample): bits 21-20 of the search word do not hold the level
code. They are equal (both 0) for levels 2 and 3, and for one and the same
level 1 they differ between band AM (1) and band FM (0). -/
theorem level_bits_21_20_counterexample :
    (searchWord TEA5757_BAND_FM TEA5757_LVL_2 TEA5757_SEARCH_NONE / 2 ^ 20) % 4 =
        (searchWord TEA5757_BAND_FM TEA5757_LVL_3 TEA5757_SEARCH_NONE / 2 ^ 20) % 4 ∧
      (searchWord TEA5757_BAND_AM TEA5757_LVL_1 TEA5757_SEARCH_NONE / 2 ^ 20) % 4 ≠
        (searchWord TEA5757_BAND_FM TEA5757_LVL_1 TEA5757_SEARCH_NONE / 2 ^ 20) % 4 := by
  decide

/-- C9 (amended): in every word sent by `search`, bits 17-16 hold the 2-bit
signal-level code. They depend only on the level, not on band or direction:
0 for level 1 (and for any value that is not 2, 3 or 4), and the pairwise
distinct values 1, 2 and 3 for levels 2, 3 and 4. -/
theorem level_code_is_bits_17_16 (band level dir : Nat) :
    (searchWord band level dir / 2 ^ 16) % 4 =
      (if level = TEA5757_LVL_2 then 1
        else if level = TEA5757_LVL_3 then 2
        else if level = TEA5757_LVL_4 then 3
        else 0) := by
  simp only [searchWord, TEA5757_BAND_AM, TEA5757_LVL_2, TEA5757_LVL_3, TEA5757_LVL_4,
    TEA5757_SEARCH_UP, TEA5757_BASE_CONFIG]
  split_ifs <;> rfl

/-! ## Unknown band in `preset` -/

/-- C10: for every frequency, every initial accumulator, either `int` width
and every band value other than `TEA5757_BAND_FM` and `TEA5757_BAND_AM`,
`preset` hands nothing to `write` and returns the GPIO state it was given,
log included: no pin call is made. -/
theorem preset_unknown_band_noop (t : TEA5757) (iw : IntWidth) (data0 frequency band : Nat)
    (g : Gpio) (hfm : band ≠ TEA5757_BAND_FM) (ham : band ≠ TEA5757_BAND_AM) :
    presetWord iw data0 frequency band = none ∧
      preset t iw data0 frequency band g = g := by
  have hw : presetWord iw data0 frequency band = none := by
    simp [presetWord, hfm, ham]
  exact ⟨hw, by simp [preset, hw]⟩

/-- C10 (witness): band value 3 on a fresh GPIO state. -/
theorem preset_unknown_band_noop_witness :
    (3 ≠ TEA5757_BAND_FM ∧ 3 ≠ TEA5757_BAND_AM) ∧
      (presetWord IntWidth.w16 0 985 3 = none ∧
        preset demoPins IntWidth.w16 0 985 3 Gpio.fresh = Gpio.fresh) :=
  ⟨by decide,
    preset_unknown_band_noop demoPins IntWidth.w16 0 985 3 Gpio.fresh (by decide) (by decide)⟩

/-! ## Effect of the GPIO calls on the state -/

@[simp] theorem digitalWrite_trace (pin : Nat) (v : Level) (g : Gpio) :
    (g.digitalWrite pin v).trace = g.trace ++ [GpioOp.digitalWrite pin v] := rfl

@[simp] theorem digitalWrite_input (pin : Nat) (v : Level) (g : Gpio) :
    (g.digitalWrite pin v).input = g.input := rfl

@[simp] theorem pinMode_trace (pin : Nat) (m : PinMode) (g : Gpio) :
    (g.pinMode pin m).trace = g.trace ++ [GpioOp.pinMode pin m] := rfl

@[simp] theorem pinMode_input (pin : Nat) (m : PinMode) (g : Gpio) :
    (g.pinMode pin m).input = g.input := rfl

@[simp] theorem delayMicroseconds_trace (us : Nat) (g : Gpio) :
    (g.delayMicroseconds us).trace = g.trace ++ [GpioOp.delayMicroseconds us] := rfl

@[simp] theorem delayMicroseconds_input (us : Nat) (g : Gpio) :
    (g.delayMicroseconds us).input = g.input := rfl

@[simp] theorem digitalRead_fst (pin : Nat) (g : Gpio) :
    (g.digitalRead pin).1 = g.input.headD Level.LOW := rfl

@[simp] theorem digitalRead_input (pin : Nat) (g : Gpio) :
    (g.digitalRead pin).2.input = g.input.tail := rfl

/-! ## The log of `write` -/

theorem clock_trace (t : TEA5757) (g : Gpio) : (clock t g).trace = g.trace ++ clockOps t := by
  simp only [clock, clockOps, digitalWrite_trace, delayMicroseconds_trace, List.append_assoc,
    List.cons_append, List.nil_append]

theorem clock_input (t : TEA5757) (g : Gpio) : (clock t g).input = g.input := by
  simp only [clock, digitalWrite_input, delayMicroseconds_input]

theorem writeLoop_trace (t : TEA5757) (n data : Nat) (g : Gpio) :
    (writeLoop t n data g).trace = g.trace ++ writeLoopOps t n data := by
  induction n generalizing data g with
  | zero => simp [writeLoop, writeLoopOps]
  | succ n ih =>
    rw [writeLoop, ih, clock_trace, writeLoopOps]
    split_ifs <;> simp only [digitalWrite_trace, List.append_assoc, List.cons_append,
      List.nil_append]

theorem write_trace (t : TEA5757) (data : Nat) (g : Gpio) :
    (write t data g).trace = g.trace ++
      ([GpioOp.digitalWrite t._wr_en_pin Level.HIGH, GpioOp.pinMode t._data_pin PinMode.OUTPUT]
        ++ (writeLoopOps t 25 data
        ++ [GpioOp.pinMode t._data_pin PinMode.INPUT,
            GpioOp.digitalWrite t._data_pin Level.HIGH,
            GpioOp.digitalWrite t._wr_en_pin Level.LOW])) := by
  simp only [write, writeLoop_trace, digitalWrite_trace, pinMode_trace, List.append_assoc,
    List.cons_append, List.nil_append]

theorem write_since (t : TEA5757) (data : Nat) (g : Gpio) :
    g.since (write t data g) =
      [GpioOp.digitalWrite t._wr_en_pin Level.HIGH, GpioOp.pinMode t._data_pin PinMode.OUTPUT]
        ++ (writeLoopOps t 25 data
        ++ [GpioOp.pinMode t._data_pin PinMode.INPUT,
            GpioOp.digitalWrite t._data_pin Level.HIGH,
            GpioOp.digitalWrite t._wr_en_pin Level.LOW]) := by
  rw [Gpio.since, write_trace, List.drop_left]

theorem clockedLevels_writeLoopOps (t : TEA5757) (hdc : t._data_pin ≠ t._clock_pin)
    (rest : List GpioOp) (hrest : ∀ c, clockedLevels t c rest = [])
    (n data : Nat) (cur : Level) :
    clockedLevels t cur (writeLoopOps t n data ++ rest) = shiftLevels n data := by
  induction n generalizing data cur with
  | zero => simp only [writeLoopOps, shiftLevels, List.nil_append, hrest]
  | succ n ih =>
    have hcd : ¬ t._clock_pin = t._data_pin := fun h => hdc h.symm
    simp only [writeLoopOps, shiftLevels, clockOps, List.cons_append, List.nil_append,
      clockedLevels, hdc, hcd, if_true, if_false, true_and, false_and, and_true, and_false,
      reduceCtorEq]
    exact congrArg _ (ih _ _)

/-- The bit `write` tests with the mask `0x01000000` is bit 24. -/
theorem land_mask_ne_zero (x : Nat) : (x &&& 0x01000000 ≠ 0) ↔ x.testBit 24 = true := by
  have h24 : (0x01000000 : Nat) = 2 ^ 24 := by norm_num
  rw [h24]
  constructor
  · intro h
    by_contra hb
    apply h
    apply Nat.eq_of_testBit_eq
    intro j
    rw [Nat.testBit_and, Nat.testBit_two_pow, Nat.zero_testBit]
    by_cases hj : 24 = j
    · subst hj; simp [hb]
    · simp [hj]
  · intro hb h
    have hz : (x &&& 2 ^ 24).testBit 24 = Nat.testBit 0 24 := by rw [h]
    rw [Nat.testBit_and, Nat.testBit_two_pow_self, hb, Nat.zero_testBit] at hz
    exact absurd hz (by decide)

theorem shiftLevels_eq (n data : Nat) (hn : n ≤ 25) :
    shiftLevels n data = (List.range n).map (fun k => bitLevel (data.testBit (24 - k))) := by
  induction n generalizing data with
  | zero => rfl
  | succ n ih =>
    rw [shiftLevels, ih _ (by omega), List.range_succ_eq_map, List.map_cons, List.map_map]
    congr 1
    · by_cases hb : data.testBit 24 = true
      · simp [bitLevel, hb, (land_mask_ne_zero data).2 hb]
      · have : ¬ (data &&& 0x01000000 ≠ 0) := fun h => hb ((land_mask_ne_zero data).1 h)
        simp only [bitLevel, hb, this, if_false]
        simp
    · apply List.map_congr_left
      intro k hk
      have hk : k < n := List.mem_range.1 hk
      have h1 : 24 - k < 32 := by omega
      have h2 : 24 - k ≥ 1 := by omega
      have h3 : 24 - k - 1 = 24 - (k + 1) := by omega
      simp only [Function.comp, Nat.testBit_mod_two_pow, Nat.testBit_shiftLeft, h1, h2,
        decide_True, Bool.true_and, h3, Nat.succ_eq_add_one]

theorem clockedLevels_digitalWrite (t : TEA5757) (cur : Level) (pin : Nat) (v : Level)
    (ops : List GpioOp) :
    clockedLevels t cur (GpioOp.digitalWrite pin v :: ops) =
      if pin = t._clock_pin ∧ v = Level.HIGH then
        (if pin = t._data_pin then v else cur)
          :: clockedLevels t (if pin = t._data_pin then v else cur) ops
      else clockedLevels t (if pin = t._data_pin then v else cur) ops := rfl

theorem clockedLevels_pinMode (t : TEA5757) (cur : Level) (pin : Nat) (m : PinMode)
    (ops : List GpioOp) :
    clockedLevels t cur (GpioOp.pinMode pin m :: ops) = clockedLevels t cur ops := rfl

/-- The levels `write` presents at its clock pulses are bits 24 down to 0 of
its argument. -/
theorem clockedLevels_write (t : TEA5757) (d : Nat) (g : Gpio)
    (hdc : t._data_pin ≠ t._clock_pin) (hwc : t._wr_en_pin ≠ t._clock_pin) :
    clockedLevels t (g.level t._data_pin) (g.since (write t d g)) =
      (List.range 25).map (fun k => bitLevel (d.testBit (24 - k))) := by
  have hrest : ∀ c, clockedLevels t c
      [GpioOp.pinMode t._data_pin PinMode.INPUT, GpioOp.digitalWrite t._data_pin Level.HIGH,
        GpioOp.digitalWrite t._wr_en_pin Level.LOW] = [] := by
    intro c
    simp only [clockedLevels, hdc, false_and, and_false, if_false, reduceCtorEq]
  rw [write_since, ← shiftLevels_eq 25 d (le_refl 25), List.cons_append, List.cons_append,
    List.nil_append, clockedLevels_digitalWrite, clockedLevels_pinMode]
  simp only [hwc, false_and, if_false]
  exact clockedLevels_writeLoopOps t hdc _ hrest 25 d _

/-! ## The value of `read` -/

theorem readLoop_fst (t : TEA5757) (n data : Nat) (g : Gpio) :
    (readLoop t n data g).1 = shiftIn n data g.input := by
  induction n generalizing data g with
  | zero => rfl
  | succ n ih =>
    rw [readLoop, shiftIn]
    simp only [ih, digitalRead_fst, digitalRead_input, clock_input]

theorem read_fst (t : TEA5757) (g : Gpio) :
    (read t g).1 = shiftIn 24 (g.input.headD Level.LOW).toNat g.input.tail := by
  simp only [read, readLoop_fst, digitalRead_fst, digitalRead_input, digitalWrite_input,
    delayMicroseconds_input]

theorem bitLevel_toNat (v n : Nat) : (bitLevel (v.testBit n)).toNat = v / 2 ^ n % 2 := by
  rw [Nat.testBit_to_div_mod]
  have h2 : v / 2 ^ n % 2 < 2 := Nat.mod_lt _ (by norm_num)
  by_cases h : v / 2 ^ n % 2 = 1
  · simp [bitLevel, h, Level.toNat]
  · have h0 : v / 2 ^ n % 2 = 0 := by omega
    simp [bitLevel, h0, Level.toNat]

/-- Shifting in the bits `n - 1` down to 0 of `v` appends the low `n` bits of
`v` to the working value, as long as the result fits 32 bits. -/
theorem shiftIn_bits (v n data : Nat) (hfit : (data + 1) * 2 ^ n ≤ 2 ^ 32) :
    shiftIn n data ((List.range n).map (fun k => bitLevel (v.testBit (n - 1 - k)))) =
      data * 2 ^ n + v % 2 ^ n := by
  induction n generalizing data with
  | zero => simp [shiftIn, Nat.mod_one]
  | succ n ih =>
    have hp : 1 ≤ 2 ^ n := Nat.one_le_two_pow
    have hpow : 2 ^ (n + 1) = 2 * 2 ^ n := by rw [pow_succ, Nat.mul_comm]
    have hd : 2 * data + 2 ≤ 2 ^ 32 := by
      rw [hpow] at hfit
      nlinarith
    have hshift : (data <<< 1) % 2 ^ 32 = 2 * data := by
      rw [Nat.shiftLeft_eq, pow_one, Nat.mul_comm]
      exact Nat.mod_eq_of_lt (by omega)
    have hor : (2 * data) ||| 0x1 = 2 * data + 1 := by
      have := Nat.mul_add_lt_is_or (show 1 < 2 ^ 1 by norm_num) data
      rw [pow_one] at this
      exact this.symm
    have hb : (bitLevel (v.testBit n)).toNat = v / 2 ^ n % 2 := bitLevel_toNat v n
    have hb2 : v / 2 ^ n % 2 < 2 := Nat.mod_lt _ (by norm_num)
    have hnew : (if (bitLevel (v.testBit n)).toNat ≠ 0 then (data <<< 1) % 2 ^ 32 ||| 0x1
        else (data <<< 1) % 2 ^ 32) = 2 * data + v / 2 ^ n % 2 := by
      rw [hshift, hor, hb]
      by_cases h : v / 2 ^ n % 2 = 0
      · simp [h]
      · have h1 : v / 2 ^ n % 2 = 1 := by omega
        simp [h1]
    have htail : (List.range n).map
        ((fun k => bitLevel (v.testBit (n + 1 - 1 - k))) ∘ Nat.succ) =
        (List.range n).map (fun k => bitLevel (v.testBit (n - 1 - k))) := by
      apply List.map_congr_left
      intro k _
      have : n + 1 - 1 - (k + 1) = n - 1 - k := by omega
      simp only [Function.comp, Nat.succ_eq_add_one, this]
    rw [List.range_succ_eq_map, List.map_cons, List.map_map, htail, shiftIn]
    simp only [List.headD_cons, List.tail_cons, Nat.add_sub_cancel, Nat.sub_zero]
    rw [hnew, ih]
    · rw [Nat.mod_pow_succ, hpow]
      ring
    · rw [hpow] at hfit
      nlinarith

/-- Sampling the levels of bits 24 down to 0 of a 25-bit value returns it. -/
theorem read_of_bit_levels (t : TEA5757) (v : Nat) (g : Gpio) (hv : v < 2 ^ 25)
    (hin : g.input = (List.range 25).map (fun k => bitLevel (v.testBit (24 - k)))) :
    (read t g).1 = v := by
  have htail : (List.range 24).map ((fun k => bitLevel (v.testBit (24 - k))) ∘ Nat.succ) =
      (List.range 24).map (fun k => bitLevel (v.testBit (24 - 1 - k))) := by
    apply List.map_congr_left
    intro k _
    have : 24 - (k + 1) = 24 - 1 - k := by omega
    simp only [Function.comp, Nat.succ_eq_add_one, this]
  have hb : (bitLevel (v.testBit 24)).toNat = v / 2 ^ 24 % 2 := bitLevel_toNat v 24
  rw [read_fst, hin, show (25 : Nat) = 24 + 1 from rfl, List.range_succ_eq_map, List.map_cons,
    List.map_map, htail]
  simp only [List.headD_cons, List.tail_cons, Nat.sub_zero]
  rw [shiftIn_bits v 24 _ (by rw [hb]; omega), hb]
  omega

theorem writeLoopOps_eq_flatMap (t : TEA5757) (n data : Nat) :
    writeLoopOps t n data =
      (shiftLevels n data).flatMap (fun l => GpioOp.digitalWrite t._data_pin l :: clockOps t) := by
  induction n generalizing data with
  | zero => rfl
  | succ n ih => rw [writeLoopOps, shiftLevels, List.flatMap_cons, ih]

/-- The calls of `write`: enter write mode, then for k = 0, ..., 24 drive the
data pin to bit 24 - k and pulse the clock once, then go back to idle. -/
theorem write_since_bits (t : TEA5757) (d : Nat) (g : Gpio) :
    g.since (write t d g) =
      [GpioOp.digitalWrite t._wr_en_pin Level.HIGH, GpioOp.pinMode t._data_pin PinMode.OUTPUT]
        ++ ((List.range 25).flatMap
            (fun k => GpioOp.digitalWrite t._data_pin (bitLevel (d.testBit (24 - k)))
              :: clockOps t)
        ++ [GpioOp.pinMode t._data_pin PinMode.INPUT,
            GpioOp.digitalWrite t._data_pin Level.HIGH,
            GpioOp.digitalWrite t._wr_en_pin Level.LOW]) := by
  rw [write_since, writeLoopOps_eq_flatMap, shiftLevels_eq 25 d (le_refl 25), List.flatMap_map]

/-! ## Transfers on the line -/

/-- C5: for every argument `d`, pin assignment and GPIO state, the calls of
`write d` are: enter write mode, then for k = 0, ..., 24 one `digitalWrite` of
the data pin to the level of bit 24 - k of `d` (`HIGH` for 1, `LOW` for 0)
followed by one clock pulse, then the return to idle. Where neither the data
pin nor the write-enable pin is the clock pin, the levels that the data line
has at the 25 successive clock pulses are therefore bits 24, 23, ..., 0 of `d`
in that order. -/
theorem write_presents_msb_first (t : TEA5757) (d : Nat) (g : Gpio) :
    g.since (write t d g) =
        [GpioOp.digitalWrite t._wr_en_pin Level.HIGH,
          GpioOp.pinMode t._data_pin PinMode.OUTPUT]
          ++ ((List.range 25).flatMap
              (fun k => GpioOp.digitalWrite t._data_pin (bitLevel (d.testBit (24 - k)))
                :: clockOps t)
          ++ [GpioOp.pinMode t._data_pin PinMode.INPUT,
              GpioOp.digitalWrite t._data_pin Level.HIGH,
              GpioOp.digitalWrite t._wr_en_pin Level.LOW]) ∧
      (t._data_pin ≠ t._clock_pin → t._wr_en_pin ≠ t._clock_pin →
        clockedLevels t (g.level t._data_pin) (g.since (write t d g)) =
          (List.range 25).map (fun k => bitLevel (d.testBit (24 - k)))) :=
  ⟨write_since_bits t d g, fun hdc hwc => clockedLevels_write t d g hdc hwc⟩

/-- C5 (witness): the FM word for 88.0 MHz written on the demo pins. -/
theorem write_presents_msb_first_witness :
    (demoPins._data_pin ≠ demoPins._clock_pin ∧ demoPins._wr_en_pin ≠ demoPins._clock_pin) ∧
      clockedLevels demoPins (Gpio.fresh.level demoPins._data_pin)
          (Gpio.fresh.since (write demoPins 990936 Gpio.fresh)) =
        (List.range 25).map (fun k => bitLevel (Nat.testBit 990936 (24 - k))) :=
  ⟨by decide,
    (write_presents_msb_first demoPins 990936 Gpio.fresh).2 (by decide) (by decide)⟩

/-- C6: round trip over a loopback line. For every value v below 2 ^ 25, if the
25 levels that `write v` presents at its successive clock pulses are, in the
same order, the levels that `read` samples, then `read` returns exactly v. -/
theorem write_read_loopback (t : TEA5757) (v : Nat) (g g2 : Gpio) (hv : v < 2 ^ 25)
    (hdc : t._data_pin ≠ t._clock_pin) (hwc : t._wr_en_pin ≠ t._clock_pin) :
    (read t { g2 with
        input := clockedLevels t (g.level t._data_pin) (g.since (write t v g)) }).1 = v :=
  read_of_bit_levels t v _ hv (clockedLevels_write t v g hdc hwc)

/-- C6 (witness): the search word of search(AM, 4, UP) written on a fresh
state and read back after the write. -/
theorem write_read_loopback_witness :
    (27197440 < 2 ^ 25 ∧ demoPins._data_pin ≠ demoPins._clock_pin ∧
        demoPins._wr_en_pin ≠ demoPins._clock_pin) ∧
      (read demoPins { write demoPins 27197440 Gpio.fresh with
          input := clockedLevels demoPins (Gpio.fresh.level demoPins._data_pin)
            (Gpio.fresh.since (write demoPins 27197440 Gpio.fresh)) }).1 = 27197440 :=
  ⟨by decide,
    write_read_loopback demoPins 27197440 Gpio.fresh (write demoPins 27197440 Gpio.fresh)
      (by decide) (by decide) (by decide)⟩

/-! ## The frequency query -/

/-- C4 (counterexample): when all 25 sampled levels are high, `read` returns
0x1FFFFFF and `getPLLFrequency` returns 0x7FFF, which is not the low 17 bits
0x1FFFF of that status word. -/
theorem getPLLFrequency_17bit_counterexample :
    (read demoPins { Gpio.fresh with input := List.replicate 25 Level.HIGH }).1 = 0x1FFFFFF ∧
      (getPLLFrequency demoPins
        { Gpio.fresh with input := List.replicate 25 Level.HIGH }).1 = 0x7FFF ∧
      (getPLLFrequency demoPins { Gpio.fresh with input := List.replicate 25 Level.HIGH }).1 ≠
        (read demoPins { Gpio.fresh with input := List.replicate 25 Level.HIGH }).1
          &&& 0x1FFFF := by
  decide

/-- C4 (amended): for every pin assignment and every GPIO state, so for every
sequence of sampled levels and every value r that `read` returns,
`getPLLFrequency` returns r AND 0x7FFF, the low-order 15 bits of the status
word (r mod 2 ^ 15), and leaves the GPIO state `read` leaves. -/
theorem getPLLFrequency_low15 (t : TEA5757) (g : Gpio) :
    (getPLLFrequency t g).1 = (read t g).1 &&& 0x7FFF ∧
      (getPLLFrequency t g).1 = (read t g).1 % 2 ^ 15 ∧
      (getPLLFrequency t g).2 = (read t g).2 := by
  have hm : (read t g).1 &&& 0x7FFF = (read t g).1 % 2 ^ 15 :=
    Nat.and_pow_two_sub_one_eq_mod _ 15
  have hlt : (read t g).1 % 2 ^ 15 < 2 ^ 16 :=
    Nat.lt_trans (Nat.mod_lt _ (by norm_num)) (by norm_num)
  have h1 : (getPLLFrequency t g).1 = ((read t g).1 &&& 0x7FFF) % 2 ^ 16 := rfl
  refine ⟨?_, ?_, rfl⟩
  · rw [h1, hm, Nat.mod_eq_of_lt hlt]
  · rw [h1, hm, Nat.mod_eq_of_lt hlt]

/-! ## Pin directions and written levels -/

@[simp] theorem digitalWrite_mode (pin : Nat) (v : Level) (g : Gpio) (p : Nat) :
    (g.digitalWrite pin v).mode p = g.mode p := rfl

@[simp] theorem digitalWrite_level (pin : Nat) (v : Level) (g : Gpio) (p : Nat) :
    (g.digitalWrite pin v).level p = if p = pin then v else g.level p := rfl

@[simp] theorem pinMode_mode (pin : Nat) (m : PinMode) (g : Gpio) (p : Nat) :
    (g.pinMode pin m).mode p = if p = pin then m else g.mode p := rfl

@[simp] theorem pinMode_level (pin : Nat) (m : PinMode) (g : Gpio) (p : Nat) :
    (g.pinMode pin m).level p = g.level p := rfl

@[simp] theorem delayMicroseconds_mode (us : Nat) (g : Gpio) (p : Nat) :
    (g.delayMicroseconds us).mode p = g.mode p := rfl

@[simp] theorem delayMicroseconds_level (us : Nat) (g : Gpio) (p : Nat) :
    (g.delayMicroseconds us).level p = g.level p := rfl

@[simp] theorem digitalRead_mode (pin : Nat) (g : Gpio) (p : Nat) :
    (g.digitalRead pin).2.mode p = g.mode p := rfl

@[simp] theorem digitalRead_level (pin : Nat) (g : Gpio) (p : Nat) :
    (g.digitalRead pin).2.level p = g.level p := rfl

@[simp] theorem digitalRead_trace (pin : Nat) (g : Gpio) :
    (g.digitalRead pin).2.trace =
      g.trace ++ [GpioOp.digitalRead pin (g.input.headD Level.LOW)] := rfl

theorem clock_mode (t : TEA5757) (g : Gpio) (p : Nat) : (clock t g).mode p = g.mode p := by
  simp only [clock, digitalWrite_mode, delayMicroseconds_mode]

theorem clock_level (t : TEA5757) (g : Gpio) (p : Nat) :
    (clock t g).level p = if p = t._clock_pin then Level.LOW else g.level p := by
  simp only [clock, digitalWrite_level, delayMicroseconds_level]
  split_ifs <;> rfl

theorem writeLoop_mode (t : TEA5757) (n data : Nat) (g : Gpio) (p : Nat) :
    (writeLoop t n data g).mode p = g.mode p := by
  induction n generalizing data g with
  | zero => rfl
  | succ n ih =>
    rw [writeLoop, ih, clock_mode]
    split_ifs <;> rfl

theorem writeLoop_level (t : TEA5757) (n data : Nat) (g : Gpio) (p : Nat)
    (hp : p ≠ t._data_pin) :
    (writeLoop t n data g).level p =
      if p = t._clock_pin ∧ 0 < n then Level.LOW else g.level p := by
  induction n generalizing data g with
  | zero => simp [writeLoop]
  | succ n ih =>
    rw [writeLoop, ih, clock_level]
    by_cases hc : p = t._clock_pin
    · simp [hc]
    · simp only [hc, false_and, if_false]
      split_ifs <;> simp only [digitalWrite_level, hp, if_false]

/-- Pin directions after `write`: the data pin is an input, every other pin
keeps its direction. -/
theorem write_mode (t : TEA5757) (d : Nat) (g : Gpio) (p : Nat) :
    (write t d g).mode p = if p = t._data_pin then PinMode.INPUT else g.mode p := by
  simp only [write, digitalWrite_mode, pinMode_mode, writeLoop_mode]
  split_ifs <;> rfl

/-- Written levels after `write`: write-enable low, else data high, else clock
low, every other pin as before. -/
theorem write_level (t : TEA5757) (d : Nat) (g : Gpio) (p : Nat) :
    (write t d g).level p =
      if p = t._wr_en_pin then Level.LOW
      else if p = t._data_pin then Level.HIGH
      else if p = t._clock_pin then Level.LOW
      else g.level p := by
  simp only [write, digitalWrite_level, pinMode_level]
  by_cases hw : p = t._wr_en_pin
  · simp only [hw, if_true]
  · by_cases hd : p = t._data_pin
    · simp only [hw, hd, if_true, if_false]
    · rw [if_neg hw, if_neg hd, writeLoop_level t 25 d _ p hd]
      simp only [hw, hd, if_false, pinMode_level, digitalWrite_level]
      by_cases hc : p = t._clock_pin
      · simp [hc]
      · simp [hc]

theorem readLoop_mode (t : TEA5757) (n data : Nat) (g : Gpio) (p : Nat) :
    (readLoop t n data g).2.mode p = g.mode p := by
  induction n generalizing data g with
  | zero => rfl
  | succ n ih => rw [readLoop, ih, digitalRead_mode, clock_mode]

theorem readLoop_level (t : TEA5757) (n data : Nat) (g : Gpio) (p : Nat) :
    (readLoop t n data g).2.level p =
      if p = t._clock_pin ∧ 0 < n then Level.LOW else g.level p := by
  induction n generalizing data g with
  | zero => simp [readLoop]
  | succ n ih =>
    rw [readLoop, ih, digitalRead_level, clock_level]
    by_cases hc : p = t._clock_pin
    · simp [hc]
    · simp [hc]

/-- Pin directions after `read`: unchanged. -/
theorem read_mode (t : TEA5757) (g : Gpio) (p : Nat) : (read t g).2.mode p = g.mode p := by
  simp only [read, readLoop_mode, digitalRead_mode, delayMicroseconds_mode, digitalWrite_mode]

/-- Written levels after `read`: clock low, write-enable low, every other pin
as before. -/
theorem read_level (t : TEA5757) (g : Gpio) (p : Nat) :
    (read t g).2.level p =
      if p = t._clock_pin then Level.LOW
      else if p = t._wr_en_pin then Level.LOW
      else g.level p := by
  simp only [read, readLoop_level, digitalRead_level, delayMicroseconds_level,
    digitalWrite_level]
  by_cases hc : p = t._clock_pin
  · simp [hc]
  · by_cases hw : p = t._wr_en_pin
    · simp [hc, hw]
    · simp [hc, hw]

/-! ## Default encodings of `search` -/

/-- C11: for every band, level and direction, `search` sends the same word,
and so makes the same calls, as with the level replaced by `TEA5757_LVL_1`
unless it is 2, 3 or 4, and the direction replaced by `TEA5757_SEARCH_DOWN`
unless it is up. In particular direction none sends the word of direction down,
and every level other than 2, 3 and 4 sends the level-1 word. -/
theorem search_default_fallback (t : TEA5757) (g : Gpio) (band level dir : Nat) :
    searchWord band level dir =
        searchWord band
          (if level = TEA5757_LVL_2 ∨ level = TEA5757_LVL_3 ∨ level = TEA5757_LVL_4
            then level else TEA5757_LVL_1)
          (if dir = TEA5757_SEARCH_UP then TEA5757_SEARCH_UP else TEA5757_SEARCH_DOWN) ∧
      search t band level dir g =
        search t band
          (if level = TEA5757_LVL_2 ∨ level = TEA5757_LVL_3 ∨ level = TEA5757_LVL_4
            then level else TEA5757_LVL_1)
          (if dir = TEA5757_SEARCH_UP then TEA5757_SEARCH_UP else TEA5757_SEARCH_DOWN) g ∧
      searchWord band level TEA5757_SEARCH_NONE = searchWord band level TEA5757_SEARCH_DOWN ∧
      (level ≠ TEA5757_LVL_2 → level ≠ TEA5757_LVL_3 → level ≠ TEA5757_LVL_4 →
        searchWord band level dir = searchWord band TEA5757_LVL_1 dir) := by
  have hword : searchWord band level dir =
      searchWord band
        (if level = TEA5757_LVL_2 ∨ level = TEA5757_LVL_3 ∨ level = TEA5757_LVL_4
          then level else TEA5757_LVL_1)
        (if dir = TEA5757_SEARCH_UP then TEA5757_SEARCH_UP else TEA5757_SEARCH_DOWN) := by
    simp only [TEA5757_LVL_1, TEA5757_LVL_2, TEA5757_LVL_3, TEA5757_LVL_4, TEA5757_SEARCH_UP,
      TEA5757_SEARCH_DOWN]
    by_cases hd : dir = 1
    · by_cases h2 : level = 2
      · simp [hd, h2]
      · by_cases h3 : level = 3
        · simp [hd, h3]
        · by_cases h4 : level = 4
          · simp [hd, h4]
          · simp [searchWord, TEA5757_LVL_2, TEA5757_LVL_3, TEA5757_LVL_4, TEA5757_SEARCH_UP,
              hd, h2, h3, h4]
    · by_cases h2 : level = 2
      · simp [searchWord, TEA5757_SEARCH_UP, hd, h2]
      · by_cases h3 : level = 3
        · simp [searchWord, TEA5757_SEARCH_UP, hd, h3]
        · by_cases h4 : level = 4
          · simp [searchWord, TEA5757_SEARCH_UP, hd, h4]
          · simp [searchWord, TEA5757_LVL_2, TEA5757_LVL_3, TEA5757_LVL_4, TEA5757_SEARCH_UP,
              hd, h2, h3, h4]
  refine ⟨hword, ?_, ?_, ?_⟩
  · rw [search, search, ← hword]
  · simp [searchWord, TEA5757_SEARCH_UP, TEA5757_SEARCH_NONE, TEA5757_SEARCH_DOWN]
  · intro h2 h3 h4
    simp only [TEA5757_LVL_2, TEA5757_LVL_3, TEA5757_LVL_4] at h2 h3 h4
    simp [searchWord, TEA5757_LVL_1, TEA5757_LVL_2, TEA5757_LVL_3, TEA5757_LVL_4, h2, h3, h4]

/-- C11 (witness): level 7 with direction none on band AM. -/
theorem search_default_fallback_witness :
    (7 ≠ TEA5757_LVL_2 ∧ 7 ≠ TEA5757_LVL_3 ∧ 7 ≠ TEA5757_LVL_4) ∧
      searchWord TEA5757_BAND_AM 7 TEA5757_SEARCH_NONE =
        searchWord TEA5757_BAND_AM TEA5757_LVL_1 TEA5757_SEARCH_NONE :=
  ⟨by decide,
    (search_default_fallback demoPins Gpio.fresh TEA5757_BAND_AM 7 TEA5757_SEARCH_NONE).2.2.2
      (by decide) (by decide) (by decide)⟩

/-! ## Idle state -/

/-- C12: for every argument `d` and every starting GPIO state, after `write d`
the data pin is an input and the write-enable pin is low; the data pin's
written level is high where the data pin is not the write-enable pin, and the
clock pin is low where the clock pin is not the data pin. -/
theorem write_leaves_idle (t : TEA5757) (d : Nat) (g : Gpio) :
    (write t d g).mode t._data_pin = PinMode.INPUT ∧
      (write t d g).level t._wr_en_pin = Level.LOW ∧
      (t._data_pin ≠ t._wr_en_pin → (write t d g).level t._data_pin = Level.HIGH) ∧
      (t._clock_pin ≠ t._data_pin → (write t d g).level t._clock_pin = Level.LOW) := by
  refine ⟨?_, ?_, ?_, ?_⟩
  · rw [write_mode]; simp
  · rw [write_level]; simp
  · intro h; rw [write_level]; simp [h]
  · intro h; rw [write_level]; simp [h]

/-- C12 (witness): the all-ones word written on the demo pins from a state in
which every pin is an output at level high. -/
theorem write_leaves_idle_witness :
    (demoPins._data_pin ≠ demoPins._wr_en_pin ∧ demoPins._clock_pin ≠ demoPins._data_pin) ∧
      (write demoPins 0x1FFFFFF
          { Gpio.fresh with mode := fun _ => PinMode.OUTPUT,
                            level := fun _ => Level.HIGH }).level demoPins._data_pin
        = Level.HIGH ∧
      (write demoPins 0x1FFFFFF
          { Gpio.fresh with mode := fun _ => PinMode.OUTPUT,
                            level := fun _ => Level.HIGH }).level demoPins._clock_pin
        = Level.LOW :=
  ⟨by decide,
    (write_leaves_idle demoPins 0x1FFFFFF _).2.2.1 (by decide),
    (write_leaves_idle demoPins 0x1FFFFFF _).2.2.2 (by decide)⟩

/-- C14: where the two input pins (status, data) are different from the two
output pins (clock, write-enable), from every starting state `init` leaves the
status pin an input, the clock pin an output at level low, the data pin an
input with written level high and the write-enable pin an output at level low;
and a `write` after `init` leaves every pin's direction and written level as
`init` left them: this is the idle state `write` returns to. -/
theorem init_postcondition (t : TEA5757) (g : Gpio)
    (hsc : t._mo_st_pin ≠ t._clock_pin) (hsw : t._mo_st_pin ≠ t._wr_en_pin)
    (hdc : t._data_pin ≠ t._clock_pin) (hdw : t._data_pin ≠ t._wr_en_pin) :
    (init t g).mode t._mo_st_pin = PinMode.INPUT ∧
      (init t g).mode t._clock_pin = PinMode.OUTPUT ∧
      (init t g).level t._clock_pin = Level.LOW ∧
      (init t g).mode t._data_pin = PinMode.INPUT ∧
      (init t g).level t._data_pin = Level.HIGH ∧
      (init t g).mode t._wr_en_pin = PinMode.OUTPUT ∧
      (init t g).level t._wr_en_pin = Level.LOW ∧
      (∀ d p, (write t d (init t g)).mode p = (init t g).mode p ∧
        (write t d (init t g)).level p = (init t g).level p) := by
  have hcs : t._clock_pin ≠ t._mo_st_pin := fun h => hsc h.symm
  have hws : t._wr_en_pin ≠ t._mo_st_pin := fun h => hsw h.symm
  have hcd : t._clock_pin ≠ t._data_pin := fun h => hdc h.symm
  have hwd : t._wr_en_pin ≠ t._data_pin := fun h => hdw h.symm
  have hmd : (init t g).mode t._data_pin = PinMode.INPUT := by
    simp [init, hdw]
  have hld : (init t g).level t._data_pin = Level.HIGH := by
    simp [init]
  have hlw : (init t g).level t._wr_en_pin = Level.LOW := by
    simp [init, hws, hwd]
  have hlc : (init t g).level t._clock_pin = Level.LOW := by
    simp [init, hcs, hcd]
  refine ⟨?_, ?_, hlc, hmd, hld, ?_, hlw, ?_⟩
  · simp [init, hsc, hsw]
  · simp [init, hcd]
  · simp [init]
  · intro d p
    rw [write_mode, write_level]
    constructor
    · by_cases hp : p = t._data_pin
      · rw [if_pos hp, hp, hmd]
      · rw [if_neg hp]
    · by_cases hw : p = t._wr_en_pin
      · rw [if_pos hw, hw, hlw]
      · by_cases hd : p = t._data_pin
        · rw [if_neg hw, if_pos hd, hd, hld]
        · by_cases hc : p = t._clock_pin
          · rw [if_neg hw, if_neg hd, if_pos hc, hc, hlc]
          · rw [if_neg hw, if_neg hd, if_neg hc]

/-- C14 (witness): `init` on the demo pins from a state in which every pin is
an output at level high. -/
theorem init_postcondition_witness :
    (demoPins._mo_st_pin ≠ demoPins._clock_pin ∧ demoPins._mo_st_pin ≠ demoPins._wr_en_pin ∧
        demoPins._data_pin ≠ demoPins._clock_pin ∧ demoPins._data_pin ≠ demoPins._wr_en_pin) ∧
      (init demoPins { Gpio.fresh with mode := fun _ => PinMode.OUTPUT,
                                       level := fun _ => Level.HIGH }).mode
          demoPins._mo_st_pin = PinMode.INPUT :=
  ⟨by decide,
    (init_postcondition demoPins _ (by decide) (by decide) (by decide) (by decide)).1⟩

/-! ## The stereo query -/

/-- C13: `isStereo` returns 1 exactly when the sampled level of the status pin
is low and 0 exactly when it is high; it makes one call, a `digitalRead` of the
status pin, and leaves every pin direction and written level as it was. -/
theorem isStereo_low_is_stereo (t : TEA5757) (g : Gpio) :
    ((isStereo t g).1 = 1 ↔ (g.digitalRead t._mo_st_pin).1 = Level.LOW) ∧
      ((isStereo t g).1 = 0 ↔ (g.digitalRead t._mo_st_pin).1 = Level.HIGH) ∧
      (isStereo t g).2.mode = g.mode ∧
      (isStereo t g).2.level = g.level ∧
      g.since (isStereo t g).2 =
        [GpioOp.digitalRead t._mo_st_pin (g.digitalRead t._mo_st_pin).1] := by
  refine ⟨?_, ?_, rfl, rfl, ?_⟩
  · simp only [isStereo]
    cases (g.digitalRead t._mo_st_pin).1 <;> simp [Level.toNat]
  · simp only [isStereo]
    cases (g.digitalRead t._mo_st_pin).1 <;> simp [Level.toNat]
  · rw [Gpio.since, isStereo, digitalRead_trace, List.drop_left]
    rfl

/-! ## Bits of the argument that `write` uses -/

/-- The loop of `write` with `n` iterations left depends on its working value
only through bits 25 - n to 24. -/
theorem writeLoop_congr (t : TEA5757) (n data data2 : Nat) (g : Gpio) (hn : n ≤ 25)
    (hbits : ∀ i, 25 - n ≤ i → i ≤ 24 → data.testBit i = data2.testBit i) :
    writeLoop t n data g = writeLoop t n data2 g := by
  induction n generalizing data data2 g with
  | zero => rfl
  | succ n ih =>
    have h24 : data.testBit 24 = data2.testBit 24 := hbits 24 (by omega) (le_refl 24)
    have hcond : (data &&& 0x01000000 ≠ 0) ↔ (data2 &&& 0x01000000 ≠ 0) := by
      rw [land_mask_ne_zero, land_mask_ne_zero, h24]
    have hnext : ∀ i, 25 - n ≤ i → i ≤ 24 →
        ((data <<< 1) % 2 ^ 32).testBit i = ((data2 <<< 1) % 2 ^ 32).testBit i := by
      intro i hlo hhi
      have h1 : i < 32 := by omega
      have h2 : i ≥ 1 := by omega
      simp only [Nat.testBit_mod_two_pow, Nat.testBit_shiftLeft, h1, h2, decide_True,
        Bool.true_and]
      exact hbits (i - 1) (by omega) (by omega)
    rw [writeLoop, writeLoop, if_congr hcond rfl rfl]
    exact ih _ _ _ (by omega) hnext

/-- C19: for every argument `d`, pin assignment and starting state, `write d`
ends in exactly the state in which `write (d mod 2 ^ 25)` ends, log included:
the two calls make the same sequence of pin operations and leave the same pin
directions and levels, so bits 25 and up of `d` never reach the data line. -/
theorem write_uses_low_25_bits (t : TEA5757) (d : Nat) (g : Gpio) :
    write t d g = write t (d % 2 ^ 25) g ∧
      g.since (write t d g) = g.since (write t (d % 2 ^ 25) g) := by
  have h : write t d g = write t (d % 2 ^ 25) g := by
    have hloop : ∀ g2, writeLoop t 25 d g2 = writeLoop t 25 (d % 2 ^ 25) g2 := by
      intro g2
      apply writeLoop_congr t 25 d (d % 2 ^ 25) g2 (le_refl 25)
      intro i _ hhi
      have : i < 25 := by omega
      rw [Nat.testBit_mod_two_pow, decide_eq_true this, Bool.true_and]
    simp only [write, hloop]
  exact ⟨h, by rw [h]⟩

/-! ## Range of the preset word -/

/-- With the local `data` of `preset` holding zero, on either `int` width: for
every F in [880, 1080] the FM word is the FM constant with the mask OR-ed with
(F + 107) * 8, and for every F in [53, 170] the AM word is the AM constant with
the mask OR-ed with (F + 45) * 10; in both cases the divider is below 2 ^ 15
and the word AND-ed with the mask of `getPLLFrequency` is the divider. -/
theorem preset_add_is_field_insert (iw : IntWidth) (Ffm Fam : Nat)
    (hfm : 880 ≤ Ffm ∧ Ffm ≤ 1080) (ham : 53 ≤ Fam ∧ Fam ≤ 170) :
    (presetWord iw 0 Ffm TEA5757_BAND_FM =
        some ((0b0000000110000000000000000 ||| TEA5757_BASE_CONFIG) ||| (Ffm + 107) * 8) ∧
      (Ffm + 107) * 8 < 2 ^ 15 ∧
      ((0b0000000110000000000000000 ||| TEA5757_BASE_CONFIG) ||| (Ffm + 107) * 8)
        &&& 0b0000000000111111111111111 = (Ffm + 107) * 8) ∧
    (presetWord iw 0 Fam TEA5757_BAND_AM =
        some ((0b0000100110000000000000000 ||| TEA5757_BASE_CONFIG) ||| (Fam + 45) * 10) ∧
      (Fam + 45) * 10 < 2 ^ 15 ∧
      ((0b0000100110000000000000000 ||| TEA5757_BASE_CONFIG) ||| (Fam + 45) * 10)
        &&& 0b0000000000111111111111111 = (Fam + 45) * 10) := by
  obtain ⟨h1, h2⟩ := hfm
  obtain ⟨h3, h4⟩ := ham
  constructor
  · interval_cases Ffm <;> cases iw <;> decide
  · interval_cases Fam <;> cases iw <;> decide

/-- C18 (the code at the failing input): `preset` reads its local `data` in
`data |= ...` before anything is assigned to it, so the word depends on what
that local holds. With 21845 (0x5555) there, preset(880, FM) hands `write` the
word 1012781: it is not the FM constant with the mask OR-ed with
(880 + 107) * 8, the addition carries inside the low 15 bits, and the word
AND-ed with the mask of `getPLLFrequency` is 29741, not the divider 7896. -/
theorem preset_unassigned_local_breaks_field :
    presetWord IntWidth.w32 21845 880 TEA5757_BAND_FM = some 1012781 ∧
      presetWord IntWidth.w16 21845 880 TEA5757_BAND_FM = some 1012781 ∧
      1012781 ≠
        (0b0000000110000000000000000 ||| TEA5757_BASE_CONFIG) ||| (880 + 107) * 8 ∧
      1012781 &&& 0b0000000000111111111111111 = 29741 ∧
      29741 ≠ (880 + 107) * 8 := by
  decide

/-- With the local `data` of `preset` holding zero: for every 16-bit frequency
and band FM or AM the divider on a 32-bit `int` is (frequency + 107) * 8 or
(frequency + 45) * 10 without wrap-around, and on either `int` width `preset`
hands `write` a word below 2 ^ 22, whose bits 24 and 23 are therefore clear. -/
theorem preset_never_searches (iw : IntWidth) (F band : Nat) (hF : F < 65536)
    (hband : band = TEA5757_BAND_FM ∨ band = TEA5757_BAND_AM) :
    divider IntWidth.w32 F 107 8 = (F + 107) * 8 ∧
      divider IntWidth.w32 F 45 10 = (F + 45) * 10 ∧
      ∃ w, presetWord iw 0 F band = some w ∧ w < 2 ^ 22 ∧
        w.testBit 24 = false ∧ w.testBit 23 = false := by
  have h8 : (F + 107) * 8 % 2 ^ 32 = (F + 107) * 8 := Nat.mod_eq_of_lt (by omega)
  have h10 : (F + 45) * 10 % 2 ^ 32 = (F + 45) * 10 := Nat.mod_eq_of_lt (by omega)
  refine ⟨h8, h10, ?_⟩
  rcases hband with rfl | rfl
  · have hd : divider iw F 107 8 < 2 ^ 16 * 9 := by
      cases iw <;> simp only [divider, IntWidth.bits, h8] <;> omega
    have hm : (2 ^ 16 * 15 + divider iw F 107 8) % 2 ^ 32
        = 2 ^ 16 * 15 + divider iw F 107 8 := Nat.mod_eq_of_lt (by omega)
    have hlt : 2 ^ 16 * 15 + divider iw F 107 8 < 2 ^ 22 := by omega
    refine ⟨2 ^ 16 * 15 + divider iw F 107 8, ?_, hlt, ?_, ?_⟩
    · simp only [presetWord, if_true]
      rw [← hm]
      rfl
    · exact Nat.testBit_lt_two_pow (by omega)
    · exact Nat.testBit_lt_two_pow (by omega)
  · have hd : divider iw F 45 10 < 2 ^ 16 * 11 := by
      cases iw <;> simp only [divider, IntWidth.bits, h10] <;> omega
    have hm : (2 ^ 16 * 31 + divider iw F 45 10) % 2 ^ 32
        = 2 ^ 16 * 31 + divider iw F 45 10 := Nat.mod_eq_of_lt (by omega)
    have hlt : 2 ^ 16 * 31 + divider iw F 45 10 < 2 ^ 22 := by omega
    refine ⟨2 ^ 16 * 31 + divider iw F 45 10, ?_, hlt, ?_, ?_⟩
    · simp only [presetWord, TEA5757_BAND_AM, TEA5757_BAND_FM]
      rw [← hm]
      rfl
    · exact Nat.testBit_lt_two_pow (by omega)
    · exact Nat.testBit_lt_two_pow (by omega)

/-- C20 (the code at the failing input): `preset` reads its local `data` in
`data |= ...` before anything is assigned to it. With 0x01000000 there,
preset(880, FM) hands `write` the word 17768152 on either `int` width (the
divider (880 + 107) * 8 does not wrap): the word is not below 2 ^ 22 and its
search-mode bit 24 is set, so this preset starts a search. -/
theorem preset_unassigned_local_starts_search :
    divider IntWidth.w32 880 107 8 = (880 + 107) * 8 ∧
      presetWord IntWidth.w32 0x01000000 880 TEA5757_BAND_FM = some 17768152 ∧
      presetWord IntWidth.w16 0x01000000 880 TEA5757_BAND_FM = some 17768152 ∧
      ¬ (17768152 < 2 ^ 22) ∧
      Nat.testBit 17768152 24 = true := by
  decide

/-! ## The log and the value of `read`, sample by sample -/

theorem readLoop_trace (t : TEA5757) (n data : Nat) (g : Gpio) :
    (readLoop t n data g).2.trace = g.trace ++ readLoopOps t n g.input := by
  induction n generalizing data g with
  | zero => simp [readLoop, readLoopOps]
  | succ n ih =>
    rw [readLoop, ih, digitalRead_trace, digitalRead_input, clock_trace, clock_input,
      readLoopOps]
    simp only [List.append_assoc]

theorem headD_eq_getD_zero (s : List Level) : s.headD Level.LOW = s.getD 0 Level.LOW := by
  cases s <;> rfl

theorem tail_getD (s : List Level) (k : Nat) :
    s.tail.getD k Level.LOW = s.getD (k + 1) Level.LOW := by
  cases s <;> rfl

theorem readLoopOps_eq_flatMap (t : TEA5757) (n : Nat) (s : List Level) :
    readLoopOps t n s =
      (List.range n).flatMap
        (fun k => clockOps t ++ [GpioOp.digitalRead t._data_pin (s.getD k Level.LOW)]) := by
  induction n generalizing s with
  | zero => rfl
  | succ n ih =>
    rw [readLoopOps, ih, List.range_succ_eq_map, List.flatMap_cons, List.flatMap_map,
      headD_eq_getD_zero]
    congr 1
    congr 1
    funext k
    simp only [Function.comp, Nat.succ_eq_add_one, tail_getD]

/-- The calls of `read`: toggle write-enable, sample the first level, then 24
times one clock pulse followed by one sample. -/
theorem read_since (t : TEA5757) (g : Gpio) :
    g.since (read t g).2 =
      [GpioOp.digitalWrite t._wr_en_pin Level.HIGH, GpioOp.delayMicroseconds TEA5757_DELAY,
        GpioOp.digitalWrite t._wr_en_pin Level.LOW, GpioOp.delayMicroseconds TEA5757_DELAY,
        GpioOp.digitalRead t._data_pin (g.input.getD 0 Level.LOW)]
      ++ (List.range 24).flatMap
        (fun k => clockOps t
          ++ [GpioOp.digitalRead t._data_pin (g.input.getD (k + 1) Level.LOW)]) := by
  have h : (read t g).2.trace = g.trace ++
      ([GpioOp.digitalWrite t._wr_en_pin Level.HIGH, GpioOp.delayMicroseconds TEA5757_DELAY,
        GpioOp.digitalWrite t._wr_en_pin Level.LOW, GpioOp.delayMicroseconds TEA5757_DELAY,
        GpioOp.digitalRead t._data_pin (g.input.getD 0 Level.LOW)]
      ++ readLoopOps t 24 g.input.tail) := by
    simp only [read, readLoop_trace, digitalRead_trace, digitalRead_input, digitalWrite_trace,
      digitalWrite_input, delayMicroseconds_trace, delayMicroseconds_input, List.append_assoc,
      List.cons_append, List.nil_append, headD_eq_getD_zero]
  have hf : (fun k => clockOps t
        ++ [GpioOp.digitalRead t._data_pin (g.input.tail.getD k Level.LOW)]) =
      (fun k => clockOps t
        ++ [GpioOp.digitalRead t._data_pin (g.input.getD (k + 1) Level.LOW)]) := by
    funext k
    rw [tail_getD]
  rw [Gpio.since, h, List.drop_left, readLoopOps_eq_flatMap, hf]

theorem toNat_le_one (l : Level) : l.toNat ≤ 1 := by
  cases l <;> simp [Level.toNat]

/-- One iteration of the loop of `read` doubles the working value and adds the
sampled level, as long as the result fits 32 bits. -/
theorem shiftIn_succ (n data : Nat) (s : List Level) (hfit : 2 * data + 2 ≤ 2 ^ 32) :
    shiftIn (n + 1) data s = shiftIn n (2 * data + (s.getD 0 Level.LOW).toNat) s.tail := by
  have hshift : (data <<< 1) % 2 ^ 32 = 2 * data := by
    rw [Nat.shiftLeft_eq, pow_one, Nat.mul_comm]
    exact Nat.mod_eq_of_lt (by omega)
  have hor : (2 * data) ||| 0x1 = 2 * data + 1 := by
    have := Nat.mul_add_lt_is_or (show 1 < 2 ^ 1 by norm_num) data
    rw [pow_one] at this
    exact this.symm
  rw [shiftIn, hshift, hor, headD_eq_getD_zero]
  cases (s.getD 0 Level.LOW) <;> simp [Level.toNat]

/-- The value the loop of `read` builds: the working value shifted left by `n`
plus the samples weighted MSB first. -/
theorem shiftIn_sum (n data : Nat) (s : List Level) (hfit : (data + 1) * 2 ^ n ≤ 2 ^ 32) :
    shiftIn n data s =
      data * 2 ^ n + ∑ k ∈ Finset.range n, (s.getD k Level.LOW).toNat * 2 ^ (n - 1 - k) := by
  induction n generalizing data s with
  | zero => simp [shiftIn]
  | succ n ih =>
    have hp : 1 ≤ 2 ^ n := Nat.one_le_two_pow
    have hpow : 2 ^ (n + 1) = 2 * 2 ^ n := by rw [pow_succ, Nat.mul_comm]
    have hb := toNat_le_one (s.getD 0 Level.LOW)
    rw [hpow] at hfit
    have hd : 2 * data + 2 ≤ 2 ^ 32 := by nlinarith
    rw [shiftIn_succ n data s hd, ih _ _ (by nlinarith), Finset.sum_range_succ', hpow]
    have hterm : ∀ k, (s.tail.getD k Level.LOW).toNat * 2 ^ (n - 1 - k) =
        (s.getD (k + 1) Level.LOW).toNat * 2 ^ (n + 1 - 1 - (k + 1)) := by
      intro k
      have e : n - 1 - k = n + 1 - 1 - (k + 1) := by omega
      rw [tail_getD, e]
    simp only [hterm, Nat.add_sub_cancel, Nat.sub_zero]
    ring

theorem shiftIn_lt (n data : Nat) (s : List Level) (hfit : (data + 1) * 2 ^ n ≤ 2 ^ 32) :
    shiftIn n data s < (data + 1) * 2 ^ n := by
  induction n generalizing data s with
  | zero => simp [shiftIn]
  | succ n ih =>
    have hp : 1 ≤ 2 ^ n := Nat.one_le_two_pow
    have hpow : 2 ^ (n + 1) = 2 * 2 ^ n := by rw [pow_succ, Nat.mul_comm]
    have hb := toNat_le_one (s.getD 0 Level.LOW)
    rw [hpow] at hfit ⊢
    have hd : 2 * data + 2 ≤ 2 ^ 32 := by nlinarith
    rw [shiftIn_succ n data s hd]
    have := ih (2 * data + (s.getD 0 Level.LOW).toNat) s.tail (by nlinarith)
    nlinarith

/-- C15: for every pin assignment and GPIO state, with s k the k-th level that
`digitalRead` samples from the call on, `read` returns the sum over k below 25
of s k * 2 ^ (24 - k), a value below 2 ^ 25; s 0 is sampled after the
write-enable toggle and before any clock pulse, and each of s 1, ..., s 24 is
sampled right after one further clock pulse. -/
theorem read_value_msb_first (t : TEA5757) (g : Gpio) :
    (read t g).1 =
        ∑ k ∈ Finset.range 25, (g.input.getD k Level.LOW).toNat * 2 ^ (24 - k) ∧
      (read t g).1 < 2 ^ 25 ∧
      g.since (read t g).2 =
        [GpioOp.digitalWrite t._wr_en_pin Level.HIGH, GpioOp.delayMicroseconds TEA5757_DELAY,
          GpioOp.digitalWrite t._wr_en_pin Level.LOW, GpioOp.delayMicroseconds TEA5757_DELAY,
          GpioOp.digitalRead t._data_pin (g.input.getD 0 Level.LOW)]
        ++ (List.range 24).flatMap
          (fun k => clockOps t
            ++ [GpioOp.digitalRead t._data_pin (g.input.getD (k + 1) Level.LOW)]) := by
  have hb := toNat_le_one (g.input.getD 0 Level.LOW)
  have hfit : ((g.input.getD 0 Level.LOW).toNat + 1) * 2 ^ 24 ≤ 2 ^ 32 := by omega
  refine ⟨?_, ?_, read_since t g⟩
  · have hsum := Finset.sum_range_succ'
      (fun k => (g.input.getD k Level.LOW).toNat * 2 ^ (24 - k)) 24
    have hterm : ∀ k, (g.input.tail.getD k Level.LOW).toNat * 2 ^ (24 - 1 - k) =
        (g.input.getD (k + 1) Level.LOW).toNat * 2 ^ (24 - (k + 1)) := by
      intro k
      have e : 24 - 1 - k = 24 - (k + 1) := by omega
      rw [tail_getD, e]
    rw [read_fst, headD_eq_getD_zero, shiftIn_sum 24 _ _ hfit, hsum]
    simp only [hterm, Nat.sub_zero]
    ring
  · rw [read_fst, headD_eq_getD_zero]
    have := shiftIn_lt 24 _ g.input.tail hfit
    omega

/-! ## Clock pulses per transfer -/

theorem clockPulses_append (t : TEA5757) (a b : List GpioOp) :
    clockPulses t (a ++ b) = clockPulses t a + clockPulses t b := by
  simp only [clockPulses, List.count_append]

theorem clockPulses_clockOps (t : TEA5757) : clockPulses t (clockOps t) = 1 := by
  simp [clockPulses, clockOps, List.count_cons]

theorem clockPulses_writeLoopOps (t : TEA5757) (hdc : t._data_pin ≠ t._clock_pin)
    (n data : Nat) : clockPulses t (writeLoopOps t n data) = n := by
  induction n generalizing data with
  | zero => rfl
  | succ n ih =>
    rw [writeLoopOps, clockPulses_append, ih, ← List.singleton_append, clockPulses_append,
      clockPulses_clockOps]
    have h0 : clockPulses t [GpioOp.digitalWrite t._data_pin
        (if data &&& 0x01000000 ≠ 0 then Level.HIGH else Level.LOW)] = 0 := by
      simp [clockPulses, List.count_cons, hdc]
    rw [h0]
    omega

theorem clockPulses_readLoopOps (t : TEA5757) (n : Nat) (s : List Level) :
    clockPulses t (readLoopOps t n s) = n := by
  induction n generalizing s with
  | zero => rfl
  | succ n ih =>
    rw [readLoopOps, clockPulses_append, ih, clockPulses_append, clockPulses_clockOps]
    have h0 : clockPulses t [GpioOp.digitalRead t._data_pin (s.headD Level.LOW)] = 0 := by
      simp [clockPulses, List.count_cons]
    rw [h0]
    omega

theorem read_since_loop (t : TEA5757) (g : Gpio) :
    g.since (read t g).2 =
      [GpioOp.digitalWrite t._wr_en_pin Level.HIGH, GpioOp.delayMicroseconds TEA5757_DELAY,
        GpioOp.digitalWrite t._wr_en_pin Level.LOW, GpioOp.delayMicroseconds TEA5757_DELAY,
        GpioOp.digitalRead t._data_pin (g.input.getD 0 Level.LOW)]
      ++ readLoopOps t 24 g.input.tail := by
  have h : (read t g).2.trace = g.trace ++
      ([GpioOp.digitalWrite t._wr_en_pin Level.HIGH, GpioOp.delayMicroseconds TEA5757_DELAY,
        GpioOp.digitalWrite t._wr_en_pin Level.LOW, GpioOp.delayMicroseconds TEA5757_DELAY,
        GpioOp.digitalRead t._data_pin (g.input.getD 0 Level.LOW)]
      ++ readLoopOps t 24 g.input.tail) := by
    simp only [read, readLoop_trace, digitalRead_trace, digitalRead_input, digitalWrite_trace,
      digitalWrite_input, delayMicroseconds_trace, delayMicroseconds_input, List.append_assoc,
      List.cons_append, List.nil_append, headD_eq_getD_zero]
  rw [Gpio.since, h, List.drop_left]

set_option maxRecDepth 8192 in
/-- C16 (counterexample): one call of `read` on the demo pins issues 24 clock
pulses, not 25, while it samples the data pin 25 times. -/
theorem read_clock_pulses_counterexample :
    clockPulses demoPins (Gpio.fresh.since (read demoPins Gpio.fresh).2) = 24 ∧
      clockPulses demoPins (Gpio.fresh.since (read demoPins Gpio.fresh).2) ≠ 25 ∧
      (Gpio.fresh.since (read demoPins Gpio.fresh).2).count
        (GpioOp.digitalRead demoPins._data_pin Level.LOW) = 25 := by
  decide

/-- C16 (amended): where neither the data pin nor the write-enable pin is the
clock pin, one call of `write` issues exactly 25 clock pulses, one for each of
its 25 bits, and one call of `read` issues exactly 24 clock pulses for its 25
bits: the first level is sampled before any pulse and each of the other 24
right after one pulse. -/
theorem clock_pulses_per_transfer (t : TEA5757) (d : Nat) (g : Gpio)
    (hdc : t._data_pin ≠ t._clock_pin) (hwc : t._wr_en_pin ≠ t._clock_pin) :
    clockPulses t (g.since (write t d g)) = 25 ∧
      clockPulses t (g.since (read t g).2) = 24 ∧
      g.since (read t g).2 =
        [GpioOp.digitalWrite t._wr_en_pin Level.HIGH, GpioOp.delayMicroseconds TEA5757_DELAY,
          GpioOp.digitalWrite t._wr_en_pin Level.LOW, GpioOp.delayMicroseconds TEA5757_DELAY,
          GpioOp.digitalRead t._data_pin (g.input.getD 0 Level.LOW)]
        ++ (List.range 24).flatMap
          (fun k => clockOps t
            ++ [GpioOp.digitalRead t._data_pin (g.input.getD (k + 1) Level.LOW)]) := by
  refine ⟨?_, ?_, read_since t g⟩
  · rw [write_since, clockPulses_append, clockPulses_append,
      clockPulses_writeLoopOps t hdc]
    have h1 : clockPulses t [GpioOp.digitalWrite t._wr_en_pin Level.HIGH,
        GpioOp.pinMode t._data_pin PinMode.OUTPUT] = 0 := by
      simp [clockPulses, List.count_cons, hwc]
    have h2 : clockPulses t [GpioOp.pinMode t._data_pin PinMode.INPUT,
        GpioOp.digitalWrite t._data_pin Level.HIGH,
        GpioOp.digitalWrite t._wr_en_pin Level.LOW] = 0 := by
      simp [clockPulses, List.count_cons, hdc]
    rw [h1, h2]
  · rw [read_since_loop, clockPulses_append, clockPulses_readLoopOps]
    have h1 : clockPulses t [GpioOp.digitalWrite t._wr_en_pin Level.HIGH,
        GpioOp.delayMicroseconds TEA5757_DELAY, GpioOp.digitalWrite t._wr_en_pin Level.LOW,
        GpioOp.delayMicroseconds TEA5757_DELAY,
        GpioOp.digitalRead t._data_pin (g.input.getD 0 Level.LOW)] = 0 := by
      simp [clockPulses, List.count_cons, hwc]
    rw [h1]

/-- C16 (witness): the search word of search(FM, 1, NONE) on the demo pins. -/
theorem clock_pulses_per_transfer_witness :
    (demoPins._data_pin ≠ demoPins._clock_pin ∧ demoPins._wr_en_pin ≠ demoPins._clock_pin) ∧
      clockPulses demoPins (Gpio.fresh.since (write demoPins 17563648 Gpio.fresh)) = 25 ∧
      clockPulses demoPins (Gpio.fresh.since (read demoPins Gpio.fresh).2) = 24 :=
  ⟨by decide,
    (clock_pulses_per_transfer demoPins 17563648 Gpio.fresh (by decide) (by decide)).1,
    (clock_pulses_per_transfer demoPins 17563648 Gpio.fresh (by decide) (by decide)).2.1⟩

/-! ## `read` and the idle state -/

theorem mem_readLoopOps (t : TEA5757) (n : Nat) (s : List Level) (op : GpioOp)
    (h : op ∈ readLoopOps t n s) :
    op ∈ clockOps t ∨ ∃ v, op = GpioOp.digitalRead t._data_pin v := by
  induction n generalizing s with
  | zero => simp [readLoopOps] at h
  | succ n ih =>
    rw [readLoopOps, List.mem_append, List.mem_append, List.mem_singleton] at h
    rcases h with (h | h) | h
    · exact Or.inl h
    · exact Or.inr ⟨_, h⟩
    · exact ih _ h

/-- C17: if before the call the clock pin and the write-enable pin are low,
then after `read` every pin has the direction and the written level it had
before the call, whatever the direction of the data pin. No call of `read` is
a `pinMode`, and every `digitalWrite` it makes is to the write-enable pin or
the clock pin. -/
theorem read_preserves_idle (t : TEA5757) (g : Gpio)
    (hclk : g.level t._clock_pin = Level.LOW) (hwr : g.level t._wr_en_pin = Level.LOW) :
    (read t g).2.mode = g.mode ∧ (read t g).2.level = g.level ∧
      ∀ op ∈ g.since (read t g).2,
        (∀ p m, op ≠ GpioOp.pinMode p m) ∧
        (∀ p v, op = GpioOp.digitalWrite p v → p = t._wr_en_pin ∨ p = t._clock_pin) := by
  refine ⟨?_, ?_, ?_⟩
  · funext p
    exact read_mode t g p
  · funext p
    rw [read_level]
    by_cases hc : p = t._clock_pin
    · rw [if_pos hc, hc, hclk]
    · by_cases hw : p = t._wr_en_pin
      · rw [if_neg hc, if_pos hw, hw, hwr]
      · rw [if_neg hc, if_neg hw]
  · intro op hop
    rw [read_since_loop, List.mem_append] at hop
    rcases hop with hop | hop
    · simp only [List.mem_cons, List.mem_singleton, List.not_mem_nil, or_false] at hop
      rcases hop with rfl | rfl | rfl | rfl | rfl <;>
        refine ⟨fun p m h => (by cases h), fun p v h => ?_⟩ <;>
        first
          | (injection h with h1 _; exact Or.inl h1.symm)
          | cases h
    · rcases mem_readLoopOps t 24 _ op hop with hc | ⟨v, rfl⟩
      · simp only [clockOps, List.mem_cons, List.mem_singleton, List.not_mem_nil,
          or_false] at hc
        rcases hc with rfl | rfl | rfl <;>
          refine ⟨fun p m h => (by cases h), fun p v h => ?_⟩ <;>
          first
            | (injection h with h1 _; exact Or.inr h1.symm)
            | cases h
      · exact ⟨fun p m h => (by cases h), fun p v h => (by cases h)⟩

/-- C17 (witness): `read` on the state `init` leaves on the demo pins. -/
theorem read_preserves_idle_witness :
    ((init demoPins Gpio.fresh).level demoPins._clock_pin = Level.LOW ∧
        (init demoPins Gpio.fresh).level demoPins._wr_en_pin = Level.LOW) ∧
      ((read demoPins (init demoPins Gpio.fresh)).2.mode = (init demoPins Gpio.fresh).mode ∧
        (read demoPins (init demoPins Gpio.fresh)).2.level
          = (init demoPins Gpio.fresh).level) :=
  ⟨by decide,
    (read_preserves_idle demoPins (init demoPins Gpio.fresh) (by decide) (by decide)).1,
    (read_preserves_idle demoPins (init demoPins Gpio.fresh) (by decide) (by decide)).2.1⟩

end TEA5757
